import Mathlib

/-!
Shallow embedding of the flask-todo-app task store and its request handlers
(`src/app.py`), together with theorems settling the specification claims.

Modelling conventions:
* a calendar date (`datetime.date`) is its proleptic Gregorian ordinal, an `Int`;
  `timedelta(days = 1)` is `+ 1`;
* a `datetime.datetime` is a pair of its date ordinal and a time-of-day count;
* the database store is the list of persisted `Task` rows; handlers take the
  store and return the store after the request together with the HTTP response.
  A handler path that returns without `db.session.commit()` leaves the store
  unchanged (the uncommitted session is rolled back at request teardown);
* form fields arrive after `strptime` parsing: a missing or empty `due_date`
  field (both falsy in Python) is `none`, a parsed date is `some d`.
-/

namespace TodoApp

/-- A `datetime.date`: proleptic Gregorian ordinal. -/
abbrev Date := Int

/-- A `datetime.datetime`: date ordinal plus time of day. -/
structure DateTime where
  day : Int
  timeOfDay : Nat
deriving DecidableEq, Repr

/-- `datetime.datetime.date()`. -/
def DateTime.toDate (dt : DateTime) : Date := dt.day

/-- The `Task` model (`class Task(db.Model)`, src/app.py lines 14-21).
`completed` defaults to `False`, `priority` to `"Medium"`, `due_date` and
`completed_at` are nullable. -/
structure Task where
  id : Nat
  task : String
  completed : Bool
  priority : String
  due_date : Option Date
  created_at : DateTime
  completed_at : Option DateTime
deriving DecidableEq, Repr

/-- HTTP outcome of a handler. -/
inductive Response where
  | redirectIndex
  | redirectEdit (task_id : Nat)
  | notFound
deriving DecidableEq, Repr

/-- The dict `priority_order = {'High': 1, 'Medium': 2, 'Low': 3}`
(src/app.py lines 25 and 278); `none` models a key that is absent, on which
the subscript lookup `priority_order[p]` raises `KeyError`. -/
def priority_order (p : String) : Option Nat :=
  if p = "High" then some 1
  else if p = "Medium" then some 2
  else if p = "Low" then some 3
  else none

/-- `priority_order.get(t.priority, 4)` — the defaulted lookup used by the
`/incomplete-tasks` sort key (src/app.py line 279). -/
def prioRankD (p : String) : Nat := (priority_order p).getD 4

/-! ### Sorting (Python `sorted(..., key = ...)`)

`sorted` first applies the key function to every element in list order
(a `KeyError` from the key aborts there), then sorts the decorated list by
comparing keys with `<`, stably.  A `<` between incomparable values (a `str`
and a `datetime.date`) raises `TypeError`; the fallible comparison returns
`Except.error ()` in that case. -/

/-- Python `False < True` on booleans. -/
def boolLt (a b : Bool) : Bool := !a && b

/-- Stable insertion of a decorated element by a total key comparison:
the element goes before the first strictly greater key. -/
def insertByKey {κ α : Type} (lt : κ → κ → Bool) (p : κ × α) :
    List (κ × α) → List (κ × α)
  | [] => [p]
  | q :: qs => if lt p.1 q.1 then p :: q :: qs else q :: insertByKey lt p qs

/-- Stable sort of a decorated list by a total key comparison. -/
def sortPairs {κ α : Type} (lt : κ → κ → Bool) :
    List (κ × α) → List (κ × α)
  | [] => []
  | p :: ps => insertByKey lt p (sortPairs lt ps)

/-- Stable insertion by a fallible key comparison; a raised `TypeError`
propagates. -/
def insertByKeyE {κ α : Type} (lt : κ → κ → Except Unit Bool) (p : κ × α) :
    List (κ × α) → Except Unit (List (κ × α))
  | [] => .ok [p]
  | q :: qs =>
    match lt p.1 q.1 with
    | .error e => .error e
    | .ok true => .ok (p :: q :: qs)
    | .ok false =>
      match insertByKeyE lt p qs with
      | .error e => .error e
      | .ok r => .ok (q :: r)

/-- Stable sort by a fallible key comparison. -/
def sortPairsE {κ α : Type} (lt : κ → κ → Except Unit Bool) :
    List (κ × α) → Except Unit (List (κ × α))
  | [] => .ok []
  | p :: ps =>
    match sortPairsE lt ps with
    | .error e => .error e
    | .ok r => insertByKeyE lt p r

/-! ### The index priority sort (src/app.py line 38)

`sorted(query.all(), key=lambda t: (priority_order[t.priority], t.completed))`.
The key computation raises `KeyError` when `t.priority` is not a dict key. -/

/-- The sort key `(priority_order[t.priority], t.completed)`;
`KeyError` on an unknown priority. -/
def indexPrioKey (t : Task) : Except Unit (Nat × Bool) :=
  match priority_order t.priority with
  | some r => .ok (r, t.completed)
  | none => .error ()

/-- Python `<` on `(int, bool)` key tuples (lexicographic, total). -/
def prioKeyLt (x y : Nat × Bool) : Bool :=
  decide (x.1 < y.1) || (x.1 == y.1 && boolLt x.2 y.2)

/-- Apply the index priority key to every task in list order; the first
`KeyError` aborts, as in Python's decorate phase. -/
def decoratePrio : List Task → Except Unit (List ((Nat × Bool) × Task))
  | [] => .ok []
  | t :: ts =>
    match indexPrioKey t with
    | .error e => .error e
    | .ok k =>
      match decoratePrio ts with
      | .error e => .error e
      | .ok ps => .ok ((k, t) :: ps)

/-- The index listing's priority sort (src/app.py line 38). -/
def indexPrioritySort (l : List Task) : Except Unit (List Task) :=
  match decoratePrio l with
  | .error e => .error e
  | .ok ps => .ok ((sortPairs prioKeyLt ps).map Prod.snd)

/-! ### The index due-date sort (src/app.py line 40)

`sorted(query.all(), key=lambda t: (t.due_date or '9999-12-31', t.completed))`.
The first key component is a `datetime.date` when `due_date` is set and the
`str` `'9999-12-31'` when it is `None`. -/

/-- The first component of the due-date sort key: a date or the string
sentinel. -/
inductive DueKey where
  | d (v : Date)
  | s (v : String)
deriving DecidableEq, Repr

/-- The key `(t.due_date or '9999-12-31', t.completed)`. -/
def dueKeyOf (t : Task) : DueKey × Bool :=
  (match t.due_date with
   | some v => .d v
   | none => .s "9999-12-31",
   t.completed)

/-- Python `<` on the due-date key tuples.  Tuple comparison first tests the
leading components for `==` (which is `False`, without error, between a `str`
and a `date`); on unequal leading components it compares them with `<`, which
raises `TypeError` between a `str` and a `date`. -/
def dueTupLt (x y : DueKey × Bool) : Except Unit Bool :=
  if x.1 = y.1 then .ok (boolLt x.2 y.2)
  else
    match x.1, y.1 with
    | .d a, .d b => .ok (decide (a < b))
    | .s a, .s b => .ok (decide (a < b))
    | _, _ => .error ()

/-- The index listing's due-date sort (src/app.py line 40). -/
def dueDateSort (l : List Task) : Except Unit (List Task) :=
  match sortPairsE dueTupLt (l.map (fun t => (dueKeyOf t, t))) with
  | .error e => .error e
  | .ok ps => .ok (ps.map Prod.snd)

/-! ### The incomplete-tasks sort (src/app.py line 279)

`sorted(incomplete_tasks, key=lambda t: (priority_order.get(t.priority, 4),
t.due_date or date.max))` — a total key: the defaulted dict lookup never
raises and the missing-date sentinel `date.max` is itself a date. -/

/-- `datetime.date.max` (9999-12-31) as an ordinal. -/
def dateMax : Date := 3652059

/-- The `/incomplete-tasks` sort key. -/
def incompleteSortKey (t : Task) : Nat × Date :=
  (prioRankD t.priority, (t.due_date).getD dateMax)

/-- Python `<` on `(int, date)` key tuples (lexicographic, total). -/
def incompleteKeyLt (x y : Nat × Date) : Bool :=
  decide (x.1 < y.1) || (x.1 == y.1 && decide (x.2 < y.2))

/-- The `/incomplete-tasks` sort (src/app.py line 279); total, no error case. -/
def incompleteSort (l : List Task) : List Task :=
  (sortPairs incompleteKeyLt (l.map (fun t => (incompleteSortKey t, t)))).map Prod.snd

/-! ### Notification buckets (src/app.py lines 48-53) -/

/-- `Task.query.filter_by(completed=False).all()`. -/
def pendingOf (s : List Task) : List Task :=
  s.filter (fun t => t.completed == false)

/-- `[t for t in pending_tasks if t.due_date and t.due_date < today_date]`. -/
def overdueTasks (s : List Task) (today : Date) : List Task :=
  (pendingOf s).filter (fun t =>
    match t.due_date with
    | some d => decide (d < today)
    | none => false)

/-- `[t for t in pending_tasks if t.due_date and t.due_date == today_date]`. -/
def dueTodayTasks (s : List Task) (today : Date) : List Task :=
  (pendingOf s).filter (fun t =>
    match t.due_date with
    | some d => d == today
    | none => false)

/-- `[t for t in pending_tasks if t.due_date and today_date < t.due_date <= soon_threshold]`
where `soon_threshold = today_date + timedelta(days=1)`. -/
def dueSoonTasks (s : List Task) (today : Date) : List Task :=
  (pendingOf s).filter (fun t =>
    match t.due_date with
    | some d => decide (today < d) && decide (d ≤ today + 1)
    | none => false)

/-! ### Dashboard streak (src/app.py lines 164-182) -/

/-- `last_7_days = [today - timedelta(days=i) for i in range(6, -1, -1)]`. -/
def last_7_days (today : Date) : List Date :=
  ((List.range 7).reverse).map (fun i : Nat => today - (i : Int))

/-- `completions_per_day.get(d, 0)`: how many stored tasks have a non-null
`completed_at` falling on day `d` (src/app.py lines 166-169). -/
def completionsCount (s : List Task) (d : Date) : Nat :=
  (s.filter (fun t =>
    match t.completed_at with
    | some dt => dt.toDate == d
    | none => false)).length

/-- The streak loop body (src/app.py lines 177-182): walk the given days in
order, counting while the day has a completion, stopping at the first day
without one. -/
def streakLoop (count : Date → Nat) : List Date → Nat
  | [] => 0
  | d :: ds => if count d > 0 then 1 + streakLoop count ds else 0

/-- The dashboard streak: the loop runs over `reversed(last_7_days)`,
i.e. today backwards. -/
def dashboardStreak (s : List Task) (today : Date) : Nat :=
  streakLoop (completionsCount s) (last_7_days today).reverse

/-! ### Mutating handlers -/

/-- The fields of the `/add` form (src/app.py lines 82-84). -/
structure AddForm where
  task : String
  priority : String
  due_date : Option Date
deriving DecidableEq, Repr

/-- The `/add` handler (src/app.py lines 80-100).  A parsed due date lying
before today flashes and redirects without creating anything; otherwise a
task is created exactly when the (untrimmed) task text is non-empty, i.e.
truthy. -/
def add (s : List Task) (nextId : Nat) (form : AddForm) (today : Date)
    (now : DateTime) : List Task × Response :=
  match form.due_date with
  | some d =>
    if d < today then (s, .redirectIndex)
    else if form.task ≠ "" then
      (s ++ [{ id := nextId, task := form.task, completed := false,
               priority := form.priority, due_date := some d,
               created_at := now, completed_at := none }], .redirectIndex)
    else (s, .redirectIndex)
  | none =>
    if form.task ≠ "" then
      (s ++ [{ id := nextId, task := form.task, completed := false,
               priority := form.priority, due_date := none,
               created_at := now, completed_at := none }], .redirectIndex)
    else (s, .redirectIndex)

/-- The `/complete/<id>` handler (src/app.py lines 105-114): toggle
`completed`, stamping `completed_at` with the current time when it becomes
true and clearing it when it becomes false. -/
def complete (s : List Task) (id : Nat) (now : DateTime) :
    List Task × Response :=
  match s.find? (fun t => t.id == id) with
  | none => (s, .notFound)
  | some _ =>
    (s.map (fun t =>
      if t.id == id then
        { t with completed := !t.completed,
                 completed_at := if !t.completed then some now else none }
      else t), .redirectIndex)

/-- The `/delete/<id>` handler (src/app.py lines 116-121). -/
def delete (s : List Task) (id : Nat) : List Task × Response :=
  match s.find? (fun t => t.id == id) with
  | none => (s, .notFound)
  | some _ => (s.filter (fun t => t.id != id), .redirectIndex)

/-- The fields of the `/edit/<id>` POST form (src/app.py lines 128-130). -/
structure EditForm where
  task : String
  priority : String
  due_date : Option Date
deriving DecidableEq, Repr

/-- The `/edit/<task_id>` POST handler (src/app.py lines 123-144).  The ORM
object is mutated (`task.task`, `task.priority`) before the due-date check;
on a past due date the handler flashes and redirects to the edit form
without `db.session.commit()`, so the draft is rolled back at teardown and
the store keeps the original row.  Otherwise the draft, with the new due
date (or `None`), is committed. -/
def edit (s : List Task) (task_id : Nat) (form : EditForm) (today : Date) :
    List Task × Response :=
  match s.find? (fun t => t.id == task_id) with
  | none => (s, .notFound)
  | some t0 =>
    match form.due_date with
    | some d =>
      if d < today then (s, .redirectEdit task_id)
      else
        (s.map (fun t =>
          if t.id == task_id then
            { t0 with task := form.task, priority := form.priority, due_date := some d }
          else t),
         .redirectIndex)
    | none =>
      (s.map (fun t =>
        if t.id == task_id then
          { t0 with task := form.task, priority := form.priority, due_date := none }
        else t),
       .redirectIndex)

/-! ### The completed/completed_at invariant (spec §3) -/

/-- `completed_at` is non-null exactly when `completed` is true. -/
def TaskInvariant (t : Task) : Prop := t.completed_at.isSome = t.completed

/-- Every stored task satisfies the pairing invariant. -/
def StoreInvariant (s : List Task) : Prop := ∀ t ∈ s, TaskInvariant t

/-! ### Concrete tasks used as witnesses and counterexamples -/

/-- A pending task with a due date (ordinal 10). -/
def taskWithDue : Task :=
  { id := 1, task := "a", completed := false, priority := "Medium",
    due_date := some 10, created_at := ⟨5, 0⟩, completed_at := none }

/-- A pending task with no due date. -/
def taskNoDue : Task :=
  { id := 2, task := "b", completed := false, priority := "High",
    due_date := none, created_at := ⟨5, 0⟩, completed_at := none }

/-- A pending task due two days from "today = 0". -/
def taskFarDue : Task :=
  { id := 3, task := "c", completed := false, priority := "Low",
    due_date := some 2, created_at := ⟨0, 0⟩, completed_at := none }

/-- A task whose priority text is outside the `priority_order` dict. -/
def taskUrgent : Task :=
  { id := 4, task := "d", completed := false, priority := "Urgent",
    due_date := none, created_at := ⟨0, 0⟩, completed_at := none }

/-! ## Theorems -/

/-- C2: sorting the listing by due date on any list mixing present and absent
due dates is not well-defined: the comparison of a `datetime.date` key with
the `str` sentinel `'9999-12-31'` raises `TypeError`.  Evaluated here on a
two-task store with one present and one absent due date. -/
theorem dueDateSortTypeError :
    dueDateSort [taskWithDue, taskNoDue] = .error () := by rfl

/-- C4: a POST to `/add` whose parsed due date lies strictly before today is
rejected before any task is created: the store is returned unchanged and the
handler redirects to the index. -/
theorem addRejectsPastDue (s : List Task) (nextId : Nat) (form : AddForm)
    (today : Date) (now : DateTime) (d : Date)
    (hdue : form.due_date = some d) (hpast : d < today) :
    add s nextId form today now = (s, Response.redirectIndex) := by
  unfold add
  rw [hdue]
  simp [hpast]

/-- C4 witness: a concrete past-due add leaves the empty store empty. -/
theorem addRejectsPastDue_witness :
    add [] 1 ⟨"x", "High", some 0⟩ 1 ⟨0, 0⟩ = ([], Response.redirectIndex) :=
  addRejectsPastDue [] 1 ⟨"x", "High", some 0⟩ 1 ⟨0, 0⟩ 0 rfl (by decide)

/-- C3: a POST to `/edit/<task_id>` on an existing task whose parsed due date
lies strictly before today is rejected: the handler redirects back to the
edit form and the store — hence the stored task's text, priority and
due date — is exactly what it was before the request. -/
theorem editRejectsPastDue (s : List Task) (task_id : Nat) (form : EditForm)
    (today : Date) (d : Date)
    (hfind : (s.find? (fun t => t.id == task_id)).isSome = true)
    (hdue : form.due_date = some d) (hpast : d < today) :
    edit s task_id form today = (s, Response.redirectEdit task_id) := by
  obtain ⟨t0, ht0⟩ := Option.isSome_iff_exists.mp hfind
  unfold edit
  rw [ht0, hdue]
  simp [hpast]

/-- C3 witness: a concrete past-due edit of an existing task leaves the
store unchanged and redirects to the edit form. -/
theorem editRejectsPastDue_witness :
    edit [taskWithDue] 1 ⟨"z", "Low", some 0⟩ 1 =
      ([taskWithDue], Response.redirectEdit 1) :=
  editRejectsPastDue [taskWithDue] 1 ⟨"z", "Low", some 0⟩ 1 0
    (by rfl) rfl (by decide)

/-- C5 counterexample: the claim fails at the whitespace-only text `" "`:
every character of it is whitespace, so its trimmed form is empty, yet
`/add` creates a task, because the handler tests truthiness of the
untrimmed string and never trims. -/
theorem addKeepsWhitespaceText :
    (" ").data.all Char.isWhitespace = true ∧
    (add [] 1 ⟨" ", "Medium", none⟩ 0 ⟨0, 0⟩).1 =
      [{ id := 1, task := " ", completed := false, priority := "Medium",
         due_date := none, created_at := ⟨0, 0⟩, completed_at := none }] :=
  ⟨rfl, rfl⟩

/-- C5 (amended): a POST to `/add` whose task text is the empty string (the
only falsy string — no trimming is applied) creates no task: the store is
unchanged. -/
theorem addDropsEmptyText (s : List Task) (nextId : Nat) (form : AddForm)
    (today : Date) (now : DateTime) (h : form.task = "") :
    (add s nextId form today now).1 = s := by
  unfold add
  match hd : form.due_date with
  | some d =>
    by_cases hlt : d < today <;> simp [h, hlt]
  | none => simp [h]

/-- C5 witness: a concrete empty-text add leaves the store unchanged. -/
theorem addDropsEmptyText_witness :
    (add [taskNoDue] 7 ⟨"", "High", none⟩ 0 ⟨0, 0⟩).1 = [taskNoDue] :=
  addDropsEmptyText [taskNoDue] 7 ⟨"", "High", none⟩ 0 ⟨0, 0⟩ rfl

/-- C9: toggling completion on an existing task redirects to the index and
maps each stored row to a row with the same id, text, priority, due date and
creation time; the targeted row flips `completed`, gaining `completed_at =
now` when it becomes true and losing it when it becomes false, and every
other row is untouched. -/
theorem completeToggles (s : List Task) (id : Nat) (now : DateTime)
    (hfind : (s.find? (fun t => t.id == id)).isSome = true) :
    (complete s id now).2 = Response.redirectIndex ∧
    ∀ t ∈ s, ∃ t2 ∈ (complete s id now).1,
      t2.id = t.id ∧ t2.task = t.task ∧ t2.priority = t.priority ∧
      t2.due_date = t.due_date ∧ t2.created_at = t.created_at ∧
      (t.id = id →
        (t.completed = false → t2.completed = true ∧ t2.completed_at = some now) ∧
        (t.completed = true → t2.completed = false ∧ t2.completed_at = none)) ∧
      (t.id ≠ id → t2 = t) := by
  obtain ⟨t0, ht0⟩ := Option.isSome_iff_exists.mp hfind
  unfold complete
  rw [ht0]
  refine ⟨rfl, ?_⟩
  intro t ht
  refine ⟨_, List.mem_map_of_mem _ ht, ?_⟩
  by_cases hid : t.id = id
  · cases hc : t.completed <;> simp [hid, hc]
  · simp [hid]

/-- C9 witness: toggling the concrete pending task marks it completed with
the given timestamp. -/
theorem completeToggles_witness :
    (complete [taskWithDue] 1 ⟨6, 0⟩).2 = Response.redirectIndex ∧
    ∀ t ∈ [taskWithDue], ∃ t2 ∈ (complete [taskWithDue] 1 ⟨6, 0⟩).1,
      t2.id = t.id ∧ t2.task = t.task ∧ t2.priority = t.priority ∧
      t2.due_date = t.due_date ∧ t2.created_at = t.created_at ∧
      (t.id = 1 →
        (t.completed = false → t2.completed = true ∧ t2.completed_at = some ⟨6, 0⟩) ∧
        (t.completed = true → t2.completed = false ∧ t2.completed_at = none)) ∧
      (t.id ≠ 1 → t2 = t) :=
  completeToggles [taskWithDue] 1 ⟨6, 0⟩ rfl

/-- C1: the pairing invariant — `completed_at` is non-null exactly when
`completed` is true — holds for every reachable store: starting from a store
where every task satisfies it, it is preserved by the add, completion-toggle,
edit and delete handlers. -/
theorem storeInvariantPreserved (s : List Task) (hs : StoreInvariant s)
    (nextId : Nat) (form : AddForm) (eform : EditForm) (today : Date)
    (now : DateTime) (id : Nat) :
    StoreInvariant (add s nextId form today now).1 ∧
    StoreInvariant (complete s id now).1 ∧
    StoreInvariant (edit s id eform today).1 ∧
    StoreInvariant (delete s id).1 := by
  refine ⟨?_, ?_, ?_, ?_⟩
  · -- add
    intro t ht
    unfold add at ht
    split at ht
    · split at ht
      · exact hs t ht
      · split at ht
        · rcases List.mem_append.mp ht with h | h
          · exact hs t h
          · rcases List.mem_singleton.mp h with rfl
            rfl
        · exact hs t ht
    · split at ht
      · rcases List.mem_append.mp ht with h | h
        · exact hs t h
        · rcases List.mem_singleton.mp h with rfl
          rfl
      · exact hs t ht
  · -- complete
    intro t ht
    unfold complete at ht
    split at ht
    · exact hs t ht
    · rcases List.mem_map.mp ht with ⟨u, hu, rfl⟩
      by_cases hid : u.id = id
      · cases hc : u.completed <;> simp [TaskInvariant, hid, hc]
      · simpa [hid] using hs u hu
  · -- edit
    intro t ht
    unfold edit at ht
    split at ht
    · exact hs t ht
    · next t0 hf =>
      have ht0 : TaskInvariant t0 := hs t0 (List.mem_of_find?_eq_some hf)
      split at ht
      · split at ht
        · exact hs t ht
        · rcases List.mem_map.mp ht with ⟨u, hu, rfl⟩
          by_cases hid : u.id = id
          · simpa [TaskInvariant, hid] using ht0
          · simpa [hid] using hs u hu
      · rcases List.mem_map.mp ht with ⟨u, hu, rfl⟩
        by_cases hid : u.id = id
        · simpa [TaskInvariant, hid] using ht0
        · simpa [hid] using hs u hu
  · -- delete
    intro t ht
    unfold delete at ht
    split at ht
    · exact hs t ht
    · exact hs t (List.mem_of_mem_filter ht)

/-- C1 witness: the invariant is preserved from a concrete invariant-holding
one-task store through all four handlers at concrete arguments. -/
theorem storeInvariantPreserved_witness :
    StoreInvariant (add [taskWithDue] 9 ⟨"y", "Low", some 3⟩ 2 ⟨7, 0⟩).1 ∧
    StoreInvariant (complete [taskWithDue] 1 ⟨7, 0⟩).1 ∧
    StoreInvariant (edit [taskWithDue] 1 ⟨"y", "Low", some 3⟩ 2).1 ∧
    StoreInvariant (delete [taskWithDue] 1).1 :=
  storeInvariantPreserved [taskWithDue]
    (by intro t ht; rcases List.mem_singleton.mp ht with rfl; rfl)
    9 ⟨"y", "Low", some 3⟩ ⟨"y", "Low", some 3⟩ 2 ⟨7, 0⟩ 1

/-- C7 counterexample: the buckets do not partition the pending tasks that
have a due date: with today at ordinal 0, the pending task due at ordinal 2
(two days ahead) has a due date yet falls in none of the three buckets. -/
theorem bucketsMissFarDue :
    taskFarDue ∈ pendingOf [taskFarDue] ∧ taskFarDue.due_date ≠ none ∧
    taskFarDue ∉ overdueTasks [taskFarDue] 0 ∧
    taskFarDue ∉ dueTodayTasks [taskFarDue] 0 ∧
    taskFarDue ∉ dueSoonTasks [taskFarDue] 0 := by
  refine ⟨?_, ?_, ?_, ?_, ?_⟩ <;> decide

/-- C7 (amended): a pending task with a due date is in the overdue bucket
iff its due date is before today, in the due-today bucket iff it equals
today, and in the due-soon bucket iff it lies strictly between today and
today plus one day; the buckets are pairwise disjoint and cover exactly the
pending tasks whose due date is at most one day ahead — a pending task due
later than tomorrow is in no bucket. -/
theorem bucketMembership (s : List Task) (today : Int) (t : Task)
    (ht : t ∈ s) (hpend : t.completed = false) (d : Int)
    (hdue : t.due_date = some d) :
    (t ∈ overdueTasks s today ↔ d < today) ∧
    (t ∈ dueTodayTasks s today ↔ d = today) ∧
    (t ∈ dueSoonTasks s today ↔ today < d ∧ d ≤ today + 1) ∧
    (d ≤ today + 1 →
      (t ∈ overdueTasks s today ∧ t ∉ dueTodayTasks s today ∧ t ∉ dueSoonTasks s today) ∨
      (t ∉ overdueTasks s today ∧ t ∈ dueTodayTasks s today ∧ t ∉ dueSoonTasks s today) ∨
      (t ∉ overdueTasks s today ∧ t ∉ dueTodayTasks s today ∧ t ∈ dueSoonTasks s today)) ∧
    (today + 1 < d →
      t ∉ overdueTasks s today ∧ t ∉ dueTodayTasks s today ∧ t ∉ dueSoonTasks s today) := by
  have hp : t ∈ pendingOf s := by
    simp [pendingOf, List.mem_filter, ht, hpend]
  have ho : t ∈ overdueTasks s today ↔ d < today := by
    simp [overdueTasks, List.mem_filter, hp, hdue]
  have htd : t ∈ dueTodayTasks s today ↔ d = today := by
    simp [dueTodayTasks, List.mem_filter, hp, hdue]
  have hsoon : t ∈ dueSoonTasks s today ↔ today < d ∧ d ≤ today + 1 := by
    simp [dueSoonTasks, List.mem_filter, hp, hdue]
  refine ⟨ho, htd, hsoon, ?_, ?_⟩
  · intro hle
    rcases lt_trichotomy d today with h | h | h
    · refine Or.inl ⟨ho.mpr h, ?_, ?_⟩
      · intro hmem; have := htd.mp hmem; omega
      · intro hmem; have := hsoon.mp hmem; omega
    · refine Or.inr (Or.inl ⟨?_, htd.mpr h, ?_⟩)
      · intro hmem; have := ho.mp hmem; omega
      · intro hmem; have := hsoon.mp hmem; omega
    · refine Or.inr (Or.inr ⟨?_, ?_, hsoon.mpr ⟨h, hle⟩⟩)
      · intro hmem; have := ho.mp hmem; omega
      · intro hmem; have := htd.mp hmem; omega
  · intro hgt
    refine ⟨?_, ?_, ?_⟩
    · intro hmem; have := ho.mp hmem; omega
    · intro hmem; have := htd.mp hmem; omega
    · intro hmem; have := hsoon.mp hmem; omega

/-- C7 witness: a concrete pending task due tomorrow (ordinal 1, today 0)
lands exactly in the due-soon bucket. -/
theorem bucketMembership_witness :
    (taskFarDue ∈ overdueTasks [taskFarDue] 1 ↔ (2 : Int) < 1) ∧
    (taskFarDue ∈ dueTodayTasks [taskFarDue] 1 ↔ (2 : Int) = 1) ∧
    (taskFarDue ∈ dueSoonTasks [taskFarDue] 1 ↔ (1 : Int) < 2 ∧ (2 : Int) ≤ 1 + 1) ∧
    ((2 : Int) ≤ 1 + 1 →
      (taskFarDue ∈ overdueTasks [taskFarDue] 1 ∧ taskFarDue ∉ dueTodayTasks [taskFarDue] 1 ∧
        taskFarDue ∉ dueSoonTasks [taskFarDue] 1) ∨
      (taskFarDue ∉ overdueTasks [taskFarDue] 1 ∧ taskFarDue ∈ dueTodayTasks [taskFarDue] 1 ∧
        taskFarDue ∉ dueSoonTasks [taskFarDue] 1) ∨
      (taskFarDue ∉ overdueTasks [taskFarDue] 1 ∧ taskFarDue ∉ dueTodayTasks [taskFarDue] 1 ∧
        taskFarDue ∈ dueSoonTasks [taskFarDue] 1)) ∧
    ((1 : Int) + 1 < 2 →
      taskFarDue ∉ overdueTasks [taskFarDue] 1 ∧ taskFarDue ∉ dueTodayTasks [taskFarDue] 1 ∧
        taskFarDue ∉ dueSoonTasks [taskFarDue] 1) :=
  bucketMembership [taskFarDue] 1 taskFarDue (by decide) rfl 2 rfl

/-- The streak loop visits the mapped days `f 0, f 1, ...` in order: it
never exceeds the number of days offered. -/
theorem streakLoop_le (count : Date → Nat) :
    ∀ (k : Nat) (f : Nat → Date), streakLoop count ((List.range k).map f) ≤ k := by
  intro k
  induction k with
  | zero => intro f; simp [streakLoop]
  | succ n ih =>
    intro f
    rw [List.range_succ_eq_map]
    simp only [List.map_cons, List.map_map, streakLoop]
    by_cases h : count (f 0) > 0
    · rw [if_pos h]
      have := ih (f ∘ Nat.succ)
      omega
    · rw [if_neg h]
      omega

/-- Every day strictly before the streak's stopping point has a completion. -/
theorem streakLoop_pos (count : Date → Nat) :
    ∀ (k : Nat) (f : Nat → Date) (i : Nat),
      i < streakLoop count ((List.range k).map f) → 0 < count (f i) := by
  intro k
  induction k with
  | zero => intro f i hi; simp [streakLoop] at hi
  | succ n ih =>
    intro f i hi
    rw [List.range_succ_eq_map] at hi
    simp only [List.map_cons, List.map_map, streakLoop] at hi
    by_cases h : count (f 0) > 0
    · rw [if_pos h] at hi
      match i with
      | 0 => exact h
      | j + 1 =>
        have := ih (f ∘ Nat.succ) j (by omega)
        simpa using this
    · rw [if_neg h] at hi
      omega

/-- When the streak stops short of the window, the very next day has no
completion. -/
theorem streakLoop_stop (count : Date → Nat) :
    ∀ (k : Nat) (f : Nat → Date),
      streakLoop count ((List.range k).map f) < k →
      count (f (streakLoop count ((List.range k).map f))) = 0 := by
  intro k
  induction k with
  | zero => intro f h; omega
  | succ n ih =>
    intro f h
    rw [List.range_succ_eq_map] at h ⊢
    simp only [List.map_cons, List.map_map, streakLoop] at h ⊢
    by_cases hc : count (f 0) > 0
    · rw [if_pos hc] at h ⊢
      have h2 := ih (f ∘ Nat.succ) (by omega)
      have : f ∘ Nat.succ = fun i => f (i + 1) := rfl
      rw [Nat.add_comm 1 (streakLoop count ((List.range n).map (f ∘ Nat.succ)))]
      simpa using h2
    · rw [if_neg hc] at h ⊢
      omega

/-- The reversed seven-day window is today backwards, day by day. -/
theorem last_7_days_reverse (today : Date) :
    (last_7_days today).reverse = (List.range 7).map (fun i : Nat => today - (i : Int)) := by
  unfold last_7_days
  rw [← List.map_reverse, List.reverse_reverse]

/-- C8: the dashboard streak counts the consecutive days, today backwards
inside the most recent seven-day window, each having at least one
completion, stopping at the first day with none; in particular it never
exceeds 7. -/
theorem dashboardStreakSpec (s : List Task) (today : Date) :
    dashboardStreak s today ≤ 7 ∧
    (∀ i : Nat, i < dashboardStreak s today →
      0 < completionsCount s (today - (i : Int))) ∧
    (dashboardStreak s today < 7 →
      completionsCount s (today - (dashboardStreak s today : Int)) = 0) := by
  have hrw : dashboardStreak s today =
      streakLoop (completionsCount s) ((List.range 7).map (fun i : Nat => today - (i : Int))) := by
    unfold dashboardStreak
    rw [last_7_days_reverse]
  refine ⟨?_, ?_, ?_⟩
  · rw [hrw]; exact streakLoop_le _ 7 _
  · intro i hi
    rw [hrw] at hi
    exact streakLoop_pos _ 7 _ i hi
  · intro hlt
    rw [hrw] at hlt ⊢
    exact streakLoop_stop _ 7 _ hlt

/-- C8 witness: the streak of the empty store is 0, which satisfies the
characterization at a concrete today. -/
theorem dashboardStreakSpec_witness :
    dashboardStreak [] 0 ≤ 7 ∧
    (∀ i : Nat, i < dashboardStreak [] 0 → 0 < completionsCount [] (0 - (i : Int))) ∧
    (dashboardStreak [] 0 < 7 →
      completionsCount [] (0 - (dashboardStreak [] 0 : Int)) = 0) :=
  dashboardStreakSpec [] 0

/-- Inserting a decorated element permutes consing it. -/
theorem insertByKey_perm {κ α : Type} (lt : κ → κ → Bool) (p : κ × α)
    (l : List (κ × α)) : (insertByKey lt p l).Perm (p :: l) := by
  induction l with
  | nil => exact List.Perm.refl _
  | cons q qs ih =>
    unfold insertByKey
    by_cases h : lt p.1 q.1 = true
    · rw [if_pos h]
    · rw [if_neg h]
      exact (ih.cons q).trans (List.Perm.swap p q qs)

/-- The stable key sort permutes its input. -/
theorem sortPairs_perm {κ α : Type} (lt : κ → κ → Bool) (l : List (κ × α)) :
    (sortPairs lt l).Perm l := by
  induction l with
  | nil => exact List.Perm.refl _
  | cons p ps ih =>
    exact (insertByKey_perm lt p (sortPairs lt ps)).trans (ih.cons p)

/-- Inserting into a list sorted by an asymmetric transitive strict key
comparison keeps it sorted: no later element's key is strictly below an
earlier one's. -/
theorem insertByKey_pairwise {κ α : Type} (lt : κ → κ → Bool)
    (hasym : ∀ a b, lt a b = true → lt b a = false)
    (htrans : ∀ a b c, lt a b = true → lt b c = true → lt a c = true)
    (p : κ × α) (l : List (κ × α))
    (hl : l.Pairwise (fun x y => lt y.1 x.1 = false)) :
    (insertByKey lt p l).Pairwise (fun x y => lt y.1 x.1 = false) := by
  induction l with
  | nil => simp [insertByKey]
  | cons q qs ih =>
    rw [List.pairwise_cons] at hl
    obtain ⟨hq, hqs⟩ := hl
    unfold insertByKey
    by_cases h : lt p.1 q.1 = true
    · rw [if_pos h]
      refine List.Pairwise.cons ?_ (List.Pairwise.cons hq hqs)
      intro r hr
      rcases List.mem_cons.mp hr with rfl | hr2
      · exact hasym _ _ h
      · by_contra hcon
        have hrp : lt r.1 p.1 = true := by
          cases hx : lt r.1 p.1
          · exact absurd hx hcon
          · rfl
        have h1 : lt r.1 q.1 = true := htrans _ _ _ hrp h
        have h2 : lt r.1 q.1 = false := hq r hr2
        rw [h1] at h2
        exact Bool.noConfusion h2
    · rw [if_neg h]
      refine List.Pairwise.cons ?_ (ih hqs)
      intro r hr
      have hmem : r ∈ p :: qs := (insertByKey_perm lt p qs).mem_iff.mp hr
      rcases List.mem_cons.mp hmem with rfl | hr2
      · exact Bool.not_eq_true _ ▸ Bool.of_not_eq_true h
      · exact hq r hr2

/-- The stable key sort yields a list sorted in the pairwise sense. -/
theorem sortPairs_pairwise {κ α : Type} (lt : κ → κ → Bool)
    (hasym : ∀ a b, lt a b = true → lt b a = false)
    (htrans : ∀ a b c, lt a b = true → lt b c = true → lt a c = true)
    (l : List (κ × α)) :
    (sortPairs lt l).Pairwise (fun x y => lt y.1 x.1 = false) := by
  induction l with
  | nil => exact List.Pairwise.nil
  | cons p ps ih => exact insertByKey_pairwise lt hasym htrans p _ ih

/-- The `(int, bool)` key comparison is asymmetric. -/
theorem prioKeyLt_asym (a b : Nat × Bool) (h : prioKeyLt a b = true) :
    prioKeyLt b a = false := by
  rcases a with ⟨r1, c1⟩
  rcases b with ⟨r2, c2⟩
  unfold prioKeyLt boolLt at h ⊢
  cases c1 <;> cases c2 <;> simp_all <;> omega

/-- The `(int, bool)` key comparison is transitive. -/
theorem prioKeyLt_trans (a b c : Nat × Bool) (h1 : prioKeyLt a b = true)
    (h2 : prioKeyLt b c = true) : prioKeyLt a c = true := by
  rcases a with ⟨r1, c1⟩
  rcases b with ⟨r2, c2⟩
  rcases c with ⟨r3, c3⟩
  unfold prioKeyLt boolLt at h1 h2 ⊢
  cases c1 <;> cases c2 <;> cases c3 <;> simp_all <;> omega

/-- Under known priorities the decorate phase succeeds and computes the
dict ranks. -/
theorem decoratePrio_ok (l : List Task)
    (h : ∀ t ∈ l, t.priority = "High" ∨ t.priority = "Medium" ∨ t.priority = "Low") :
    decoratePrio l =
      .ok (l.map (fun t => ((prioRankD t.priority, t.completed), t))) := by
  induction l with
  | nil => rfl
  | cons t ts ih =>
    have hkey : indexPrioKey t = .ok (prioRankD t.priority, t.completed) := by
      rcases h t (List.mem_cons_self t ts) with hp | hp | hp <;>
        simp [indexPrioKey, priority_order, prioRankD, hp]
    unfold decoratePrio
    rw [hkey, ih (fun u hu => h u (List.mem_cons_of_mem t hu))]
    rfl

/-- C6: when every task's priority is High, Medium or Low, the index
priority sort succeeds, returns a permutation of its input, and orders it
so that an earlier task never has a larger priority rank than a later one
(High rank 1 before Medium rank 2 before Low rank 3) and, within equal
rank, a completed task never precedes an incomplete one. -/
theorem prioritySortOrders (l : List Task)
    (h : ∀ t ∈ l, t.priority = "High" ∨ t.priority = "Medium" ∨ t.priority = "Low") :
    ∃ l2, indexPrioritySort l = .ok l2 ∧ l2.Perm l ∧
      l2.Pairwise (fun a b =>
        prioRankD a.priority ≤ prioRankD b.priority ∧
        (prioRankD a.priority = prioRankD b.priority →
          a.completed = true → b.completed = true)) := by
  refine ⟨(sortPairs prioKeyLt
      (l.map (fun t => ((prioRankD t.priority, t.completed), t)))).map Prod.snd,
    ?_, ?_, ?_⟩
  · unfold indexPrioritySort
    rw [decoratePrio_ok l h]
  · have hperm :=
      (sortPairs_perm prioKeyLt
        (l.map (fun t => ((prioRankD t.priority, t.completed), t)))).map Prod.snd
    simpa [List.map_map, Function.comp_def] using hperm
  · have hpw := sortPairs_pairwise prioKeyLt prioKeyLt_asym prioKeyLt_trans
      (l.map (fun t => ((prioRankD t.priority, t.completed), t)))
    have hmem : ∀ p ∈ sortPairs prioKeyLt
        (l.map (fun t => ((prioRankD t.priority, t.completed), t))),
        p.1 = (prioRankD p.2.priority, p.2.completed) := by
      intro p hp
      have hp2 := (sortPairs_perm prioKeyLt _).mem_iff.mp hp
      rcases List.mem_map.mp hp2 with ⟨t, _, rfl⟩
      rfl
    rw [List.pairwise_map]
    refine List.Pairwise.imp_of_mem ?_ hpw
    intro p q hp hq hlt
    rw [hmem p hp, hmem q hq] at hlt
    unfold prioKeyLt boolLt at hlt
    cases hc1 : p.2.completed <;> cases hc2 : q.2.completed <;>
      simp_all <;> omega

/-- C6 witness: a concrete two-task list (a completed High task and a
pending Medium one) admits the ordered sorted output. -/
theorem prioritySortOrders_witness :
    ∃ l2, indexPrioritySort [taskWithDue, taskNoDue] = .ok l2 ∧
      l2.Perm [taskWithDue, taskNoDue] ∧
      l2.Pairwise (fun a b =>
        prioRankD a.priority ≤ prioRankD b.priority ∧
        (prioRankD a.priority = prioRankD b.priority →
          a.completed = true → b.completed = true)) :=
  prioritySortOrders [taskWithDue, taskNoDue] (by decide)

/-- C10: a priority text outside the dict has no rank: the subscript lookup
is undefined, the index sort key raises `KeyError` and the index priority
sort on any store containing such a task errors — its error branch is
reachable.  The `/incomplete-tasks` sort instead is total: its defaulted
lookup gives such a task rank 4, after Low's rank 3, and the sort returns a
permutation of any input. -/
theorem indexSortPartialIncompleteTotal (p : String)
    (hp : p ≠ "High" ∧ p ≠ "Medium" ∧ p ≠ "Low") (t : Task)
    (ht : t.priority = p) :
    priority_order p = none ∧
    indexPrioKey t = .error () ∧
    indexPrioritySort [t] = .error () ∧
    prioRankD p = 4 ∧
    prioRankD "Low" < prioRankD p ∧
    ∀ l : List Task, (incompleteSort l).Perm l := by
  obtain ⟨h1, h2, h3⟩ := hp
  have hpo : priority_order p = none := by
    simp [priority_order, h1, h2, h3]
  have hkey : indexPrioKey t = .error () := by
    simp [indexPrioKey, ht, hpo]
  have h4 : prioRankD p = 4 := by simp [prioRankD, hpo]
  refine ⟨hpo, hkey, ?_, h4, ?_, ?_⟩
  · simp [indexPrioritySort, decoratePrio, hkey]
  · rw [h4]
    decide
  · intro l
    have hperm :=
      (sortPairs_perm incompleteKeyLt
        (l.map (fun t => (incompleteSortKey t, t)))).map Prod.snd
    simpa [incompleteSort, List.map_map, Function.comp_def] using hperm

/-- C10 witness: the concrete priority text `"Urgent"` exhibits the partial
index key and the total rank-4 incomplete key. -/
theorem indexSortPartialIncompleteTotal_witness :
    priority_order "Urgent" = none ∧
    indexPrioKey taskUrgent = .error () ∧
    indexPrioritySort [taskUrgent] = .error () ∧
    prioRankD "Urgent" = 4 ∧
    prioRankD "Low" < prioRankD "Urgent" ∧
    ∀ l : List Task, (incompleteSort l).Perm l :=
  indexSortPartialIncompleteTotal "Urgent"
    ⟨by decide, by decide, by decide⟩ taskUrgent rfl

end TodoApp
